import Mathlib

/-!
Verification of the timetable CSP solver (`csp_solver.py`).

The solver's data records are shallowly embedded as Lean structures; the
solver's mutable per-run state (`self.solution`, the three busy-slot
dictionaries, the preferred-teacher map and the per-day session counters)
is an explicit `SolverState` record threaded through the loop functions.
Python's `random.shuffle` calls are modelled by passing the shuffled
course/group lists as parameters and an `oracle : Nat → List Teacher`
producing the successive teacher shuffles of a run.
-/

namespace TimetableGen

structure Course where
  id : String
  code : String
  name : String
  sessions_per_week : Nat
  course_type : String
  deriving DecidableEq, Repr

structure Teacher where
  id : String
  name : String
  department : String
  deriving DecidableEq, Repr

structure Room where
  id : String
  room_number : String
  capacity : Nat
  room_type : String
  deriving DecidableEq, Repr

structure TimeSlot where
  id : String
  day : String
  period : Int
  start_time : String
  end_time : String
  deriving DecidableEq, Repr

structure Group where
  id : String
  name : String
  semester : Nat
  department : String
  deriving DecidableEq, Repr

/-- The denormalized assignment record built in `assign_session`. -/
structure Assignment where
  course_code : String
  course_name : String
  teacher_name : String
  room_number : String
  day : String
  period : Int
  start_time : String
  end_time : String
  group_name : String
  course_type : String
  room_type : String
  deriving DecidableEq, Repr

/-- The mutable state of a `TimetableSolver` instance: the five catalog
collections stored in `__init__` plus the tracking structures.  Python
dictionaries with a default ("absent key = not yet busy") are modelled as
total functions. -/
structure SolverState where
  courses : List Course
  teachers : List Teacher
  rooms : List Room
  timeslots : List TimeSlot
  groups : List Group
  solution : List Assignment
  teacher_assignments : String → List (String × Int)
  room_assignments : String → List (String × Int)
  group_assignments : String → List (String × Int)
  course_teacher_map : String → Option String
  course_day_sessions : String × String × String → Nat

/-- `TimetableSolver.__init__`. -/
def mkSolver (courses : List Course) (teachers : List Teacher) (rooms : List Room)
    (timeslots : List TimeSlot) (groups : List Group) : SolverState :=
  { courses := courses, teachers := teachers, rooms := rooms,
    timeslots := timeslots, groups := groups,
    solution := [],
    teacher_assignments := fun _ => [],
    room_assignments := fun _ => [],
    group_assignments := fun _ => [],
    course_teacher_map := fun _ => none,
    course_day_sessions := fun _ => 0 }

/-- `TimetableSolver.is_valid`: the seven checks in source order. -/
def is_valid (s : SolverState) (course : Course) (teacher : Teacher) (room : Room)
    (timeslot : TimeSlot) (group : Group) : Bool :=
  let day := timeslot.day
  let period := timeslot.period
  if (day, period) ∈ s.teacher_assignments teacher.id then false
  else if (day, period) ∈ s.room_assignments room.id then false
  else if (day, period) ∈ s.group_assignments group.id then false
  else if course.course_type ≠ room.room_type then false
  else if s.solution.any (fun a =>
      a.group_name == group.name && a.day == day && a.course_code == course.code &&
      (a.period - period).natAbs == 1) then false
  else if 2 ≤ s.course_day_sessions (course.code, group.id, day) then false
  else if 6 ≤ (s.solution.filter
      (fun a => a.teacher_name == teacher.name && a.day == day)).length then false
  else true

/-- `TimetableSolver.get_rooms_for_course`. -/
def get_rooms_for_course (course : Course) (rooms : List Room) : List Room :=
  rooms.filter (fun room => room.room_type == course.course_type)

/-- The assignment dictionary literal built in `assign_session`. -/
def mk_assignment (course : Course) (teacher : Teacher) (room : Room)
    (timeslot : TimeSlot) (group : Group) : Assignment :=
  { course_code := course.code, course_name := course.name,
    teacher_name := teacher.name, room_number := room.room_number,
    day := timeslot.day, period := timeslot.period,
    start_time := timeslot.start_time, end_time := timeslot.end_time,
    group_name := group.name, course_type := course.course_type,
    room_type := room.room_type }

/-- `TimetableSolver._update_assignments` (including the Python truthiness
guard `if course_code and group_id_for_course`, under which an empty string
counts as absent). -/
def update_assignments (s : SolverState) (teacher_id room_id group_id : String)
    (day : String) (period : Int) (course_code group_id_for_course : String) :
    SolverState :=
  { s with
    teacher_assignments := fun t =>
      if t = teacher_id then s.teacher_assignments t ++ [(day, period)]
      else s.teacher_assignments t,
    room_assignments := fun r =>
      if r = room_id then s.room_assignments r ++ [(day, period)]
      else s.room_assignments r,
    group_assignments := fun g =>
      if g = group_id then s.group_assignments g ++ [(day, period)]
      else s.group_assignments g,
    course_day_sessions := fun key =>
      if course_code ≠ "" ∧ group_id_for_course ≠ "" ∧
          key = (course_code, group_id_for_course, day)
      then s.course_day_sessions key + 1
      else s.course_day_sessions key }

/-- The `CHANGE 6` block of `assign_session`: record the course→teacher
stickiness entry only if the course has none yet. -/
def record_preferred (s : SolverState) (course_code teacher_id : String) :
    SolverState :=
  if (s.course_teacher_map course_code).isNone then
    { s with course_teacher_map := fun c =>
        if c = course_code then some teacher_id else s.course_teacher_map c }
  else s

/-- The commit performed by `assign_session` once `is_valid` accepts a
candidate: optionally record stickiness (pass 1 only), append the
assignment to the solution, and update the tracking dictionaries. -/
def commit (s : SolverState) (course : Course) (group : Group)
    (teacher : Teacher) (room : Room) (timeslot : TimeSlot)
    (record_pref : Bool) : SolverState :=
  let s1 := if record_pref then record_preferred s course.code teacher.id else s
  let s2 := { s1 with
    solution := s1.solution ++ [mk_assignment course teacher room timeslot group] }
  update_assignments s2 teacher.id room.id group.id timeslot.day timeslot.period
    course.code group.id

/-- Innermost loop of `assign_session`: first timeslot accepted by
`is_valid` for a fixed teacher and room. -/
def find_slot (s : SolverState) (course : Course) (group : Group)
    (teacher : Teacher) (room : Room) (timeslots : List TimeSlot) :
    Option TimeSlot :=
  timeslots.find? (fun ts => is_valid s course teacher room ts group)

/-- The `for room in valid_rooms: for timeslot in ...` nest for a fixed
teacher. -/
def find_room_slot (s : SolverState) (course : Course) (group : Group)
    (teacher : Teacher) : List Room → List TimeSlot → Option (Room × TimeSlot)
  | [], _ => none
  | r :: rs, tss =>
    match find_slot s course group teacher r tss with
    | some ts => some (r, ts)
    | none => find_room_slot s course group teacher rs tss

/-- The full teacher × room × timeslot nest of `assign_session`. -/
def find_triple (s : SolverState) (course : Course) (group : Group) :
    List Teacher → List Room → List TimeSlot →
    Option (Teacher × Room × TimeSlot)
  | [], _, _ => none
  | t :: ts, rooms, tss =>
    match find_room_slot s course group t rooms tss with
    | some (r, sl) => some (t, r, sl)
    | none => find_triple s course group ts rooms tss

/-- `TimetableSolver.assign_session`.  `sh1` is the shuffled teacher list
used by pass 1 when no preferred teacher restricts the search (Python's
`random.shuffle(teachers)` in the else-branch of `CHANGE 4`); `sh2` is the
reshuffled list used by pass 2 (`CHANGE 8`).  When a preferred teacher id
is recorded (and non-empty, per Python truthiness), pass 1's loop skips
every other teacher, which amounts to iterating
`self.teachers.filter (·.id == preferred)`. -/
def assign_session (sh1 sh2 : List Teacher) (course : Course) (group : Group)
    (s : SolverState) : Option SolverState :=
  let valid_rooms := get_rooms_for_course course s.rooms
  match s.course_teacher_map course.code with
  | some tid =>
    if tid ≠ "" then
      match find_triple s course group
          (s.teachers.filter (fun t => t.id == tid)) valid_rooms s.timeslots with
      | some (t, r, sl) => some (commit s course group t r sl true)
      | none =>
        match find_triple s course group sh2 valid_rooms s.timeslots with
        | some (t, r, sl) => some (commit s course group t r sl false)
        | none => none
    else
      match find_triple s course group sh1 valid_rooms s.timeslots with
      | some (t, r, sl) => some (commit s course group t r sl true)
      | none => none
  | none =>
    match find_triple s course group sh1 valid_rooms s.timeslots with
    | some (t, r, sl) => some (commit s course group t r sl true)
    | none => none

/-- The `for session in range(sessions_needed)` loop of `solve`.  The
`Bool` component is the success flag; on a failed `assign_session` the
loop stops, keeping the state reached so far (Python keeps
`self.solution` as is and `solve` returns `None`).  The `Nat` is the
position in the shuffle oracle. -/
def schedule_sessions (oracle : Nat → List Teacher) (course : Course)
    (group : Group) : Nat → SolverState → Nat → SolverState × Nat × Bool
  | 0, s, k => (s, k, true)
  | n + 1, s, k =>
    match assign_session (oracle k) (oracle (k + 1)) course group s with
    | some s' => schedule_sessions oracle course group n s' (k + 2)
    | none => (s, k, false)

/-- The `for group in groups` loop of `solve`. -/
def schedule_groups (oracle : Nat → List Teacher) (course : Course) :
    List Group → SolverState → Nat → SolverState × Nat × Bool
  | [], s, k => (s, k, true)
  | g :: gs, s, k =>
    match schedule_sessions oracle course g course.sessions_per_week s k with
    | (s', k', true) => schedule_groups oracle course gs s' k'
    | (s', k', false) => (s', k', false)

/-- The `for course in courses` loop of `solve`. -/
def schedule_courses (oracle : Nat → List Teacher) (groups : List Group) :
    List Course → SolverState → Nat → SolverState × Nat × Bool
  | [], s, k => (s, k, true)
  | c :: cs, s, k =>
    match schedule_groups oracle c groups s k with
    | (s', k', true) => schedule_courses oracle groups cs s' k'
    | (s', k', false) => (s', k', false)

/-- `TimetableSolver.solve`.  `shuffled_courses` / `shuffled_groups` are
the shuffled working copies of `self.courses` / `self.groups`.  Returns
the Python return value (`self.solution` on success, `None` on failure)
together with the state of the solver object after the call. -/
def solve (oracle : Nat → List Teacher) (shuffled_courses : List Course)
    (shuffled_groups : List Group) (s : SolverState) :
    Option (List Assignment) × SolverState :=
  match schedule_courses oracle shuffled_groups shuffled_courses s 0 with
  | (s', _, true) => (some s'.solution, s')
  | (s', _, false) => (none, s')

/-- `format_solution`'s inner dictionary for one day: Python dict with
`int` keys in insertion order, new periods appended at the end, each
assignment appended to its period's bucket. -/
def add_to_periods (a : Assignment) :
    List (Int × List Assignment) → List (Int × List Assignment)
  | [] => [(a.period, [a])]
  | (p, bucket) :: rest =>
    if p = a.period then (p, bucket ++ [a]) :: rest
    else (p, bucket) :: add_to_periods a rest

/-- `format_solution`'s outer dictionary: day keys in insertion order. -/
def add_to_days (a : Assignment) :
    List (String × List (Int × List Assignment)) →
    List (String × List (Int × List Assignment))
  | [] => [(a.day, [(a.period, [a])])]
  | (d, buckets) :: rest =>
    if d = a.day then (d, add_to_periods a buckets) :: rest
    else (d, buckets) :: add_to_days a rest

/-- `dict(sorted(organized[day].items()))`: re-emit one day's period
buckets in ascending key order. -/
def sort_periods (buckets : List (Int × List Assignment)) :
    List (Int × List Assignment) :=
  List.insertionSort (fun x y => x.1 ≤ y.1) buckets

/-- `TimetableSolver.format_solution`. -/
def format_solution (solution : List Assignment) :
    List (String × List (Int × List Assignment)) :=
  if solution = [] then []
  else
    let organized := solution.foldl (fun acc a => add_to_days a acc) []
    organized.map (fun db => (db.1, sort_periods db.2))

/-- Concatenation of one day's period buckets. -/
def flatten_periods (buckets : List (Int × List Assignment)) :
    List Assignment :=
  buckets.flatMap (fun pb => pb.2)

/-- Concatenation of all day/period buckets of a formatted solution. -/
def flatten_formatted (org : List (String × List (Int × List Assignment))) :
    List Assignment :=
  org.flatMap (fun db => flatten_periods db.2)

/-- C10: format_solution on an empty solution returns the empty mapping
(no day keys at all). -/
theorem format_solution_empty : format_solution [] = [] := by
  simp [format_solution]

/-- `is_valid` accepts a candidate exactly when all seven checks pass:
the three busy-set checks, the type match, the same-course adjacency
rule, the per-day course cap and the per-day teacher cap. -/
theorem is_valid_eq_true (s : SolverState) (course : Course)
    (teacher : Teacher) (room : Room) (timeslot : TimeSlot) (group : Group) :
    is_valid s course teacher room timeslot group = true ↔
      ((timeslot.day, timeslot.period) ∉ s.teacher_assignments teacher.id ∧
       (timeslot.day, timeslot.period) ∉ s.room_assignments room.id ∧
       (timeslot.day, timeslot.period) ∉ s.group_assignments group.id ∧
       course.course_type = room.room_type ∧
       (∀ a ∈ s.solution, ¬(a.group_name = group.name ∧ a.day = timeslot.day ∧
          a.course_code = course.code ∧
          (a.period - timeslot.period).natAbs = 1)) ∧
       s.course_day_sessions (course.code, group.id, timeslot.day) < 2 ∧
       (s.solution.filter (fun a => a.teacher_name == teacher.name &&
          a.day == timeslot.day)).length < 6) := by
  simp only [is_valid]
  split_ifs with h1 h2 h3 h4 h5 h6 h7
  · simp only [false_iff]; rintro ⟨c1, -⟩; exact c1 h1
  · simp only [false_iff]; rintro ⟨-, c2, -⟩; exact c2 h2
  · simp only [false_iff]; rintro ⟨-, -, c3, -⟩; exact c3 h3
  · simp only [false_iff]; rintro ⟨-, -, -, c4, -⟩; exact h4 c4
  · simp only [false_iff]; rintro ⟨-, -, -, -, c5, -⟩
    rw [List.any_eq_true] at h5
    obtain ⟨a, ha, hb⟩ := h5
    simp only [Bool.and_eq_true, beq_iff_eq] at hb
    exact c5 a ha ⟨hb.1.1.1, hb.1.1.2, hb.1.2, hb.2⟩
  · simp only [false_iff]; rintro ⟨-, -, -, -, -, c6, -⟩; omega
  · simp only [false_iff]; rintro ⟨-, -, -, -, -, -, c7⟩; omega
  · simp only [true_iff]
    refine ⟨h1, h2, h3, not_ne_iff.mp h4, ?_, by omega, by omega⟩
    intro a ha hc
    apply h5
    rw [List.any_eq_true]
    exact ⟨a, ha, by simp [hc.1, hc.2.1, hc.2.2.1, hc.2.2.2]⟩

/-- C4: `is_valid` returns false when some committed assignment of the
same group, day and course code sits at an adjacent period, when the
(course, group, day) session counter is already ≥ 2, or when the teacher
already has ≥ 6 committed assignments that day; and it returns true when
none of these soft constraints nor any hard constraint (teacher, room and
group free; course type equal to room type) is violated. -/
theorem is_valid_soft_and_hard_constraints (s : SolverState) (course : Course)
    (teacher : Teacher) (room : Room) (timeslot : TimeSlot) (group : Group) :
    ((∃ a ∈ s.solution, a.group_name = group.name ∧ a.day = timeslot.day ∧
        a.course_code = course.code ∧
        (a.period - timeslot.period).natAbs = 1) →
      is_valid s course teacher room timeslot group = false) ∧
    (2 ≤ s.course_day_sessions (course.code, group.id, timeslot.day) →
      is_valid s course teacher room timeslot group = false) ∧
    (6 ≤ (s.solution.filter (fun a => a.teacher_name == teacher.name &&
        a.day == timeslot.day)).length →
      is_valid s course teacher room timeslot group = false) ∧
    (((timeslot.day, timeslot.period) ∉ s.teacher_assignments teacher.id ∧
      (timeslot.day, timeslot.period) ∉ s.room_assignments room.id ∧
      (timeslot.day, timeslot.period) ∉ s.group_assignments group.id ∧
      course.course_type = room.room_type ∧
      (∀ a ∈ s.solution, ¬(a.group_name = group.name ∧ a.day = timeslot.day ∧
        a.course_code = course.code ∧
        (a.period - timeslot.period).natAbs = 1)) ∧
      s.course_day_sessions (course.code, group.id, timeslot.day) < 2 ∧
      (s.solution.filter (fun a => a.teacher_name == teacher.name &&
        a.day == timeslot.day)).length < 6) →
      is_valid s course teacher room timeslot group = true) := by
  have hiff := is_valid_eq_true s course teacher room timeslot group
  refine ⟨?_, ?_, ?_, fun h => hiff.mpr h⟩
  · intro ⟨a, ha, hconj⟩
    rcases hb : is_valid s course teacher room timeslot group with _ | _
    · rfl
    · exact absurd hconj ((hiff.mp hb).2.2.2.2.1 a ha)
  · intro hle
    rcases hb : is_valid s course teacher room timeslot group with _ | _
    · rfl
    · have := (hiff.mp hb).2.2.2.2.2.1; omega
  · intro hle
    rcases hb : is_valid s course teacher room timeslot group with _ | _
    · rfl
    · have := (hiff.mp hb).2.2.2.2.2.2; omega

/-- The nested teacher × room × timeslot enumeration order of
`assign_session`, flattened. -/
def triples (teachers : List Teacher) (rooms : List Room)
    (tss : List TimeSlot) : List (Teacher × Room × TimeSlot) :=
  teachers.flatMap (fun t => rooms.flatMap (fun r => tss.map (fun sl => (t, r, sl))))

/-- Modelled from the spec (§4.4 `assignSession`): pass 1 enumerates
teacher × room × timeslot with the trial set restricted to the preferred
teacher when one is recorded, committing the first accepted triple;
pass 2 runs only when pass 1 exhausted all combinations while a preferred
teacher was restricting the search, re-enumerating with all teachers in
the (second) randomized order; failure only when both passes exhaust. -/
def assign_session_spec_model (sh1 sh2 : List Teacher) (course : Course)
    (group : Group) (s : SolverState) : Option SolverState :=
  let accept := fun (x : Teacher × Room × TimeSlot) =>
    is_valid s course x.1 x.2.1 x.2.2 group
  let valid_rooms := get_rooms_for_course course s.rooms
  let restricting : Bool := match s.course_teacher_map course.code with
    | some tid => tid != ""
    | none => false
  let pass1_teachers := match s.course_teacher_map course.code with
    | some tid =>
      if tid = "" then sh1 else s.teachers.filter (fun t => t.id == tid)
    | none => sh1
  match (triples pass1_teachers valid_rooms s.timeslots).find? accept with
  | some (t, r, sl) => some (commit s course group t r sl true)
  | none =>
    if restricting then
      match (triples sh2 valid_rooms s.timeslots).find? accept with
      | some (t, r, sl) => some (commit s course group t r sl false)
      | none => none
    else none

theorem find_room_slot_eq_find? (s : SolverState) (course : Course)
    (group : Group) (teacher : Teacher) (rooms : List Room)
    (tss : List TimeSlot) :
    find_room_slot s course group teacher rooms tss =
      (rooms.flatMap (fun r => tss.map (fun sl => (r, sl)))).find?
        (fun p => is_valid s course teacher p.1 p.2 group) := by
  induction rooms with
  | nil => rfl
  | cons r rs ih =>
    have hmap : (tss.map (fun sl => ((r : Room), sl))).find?
        (fun p => is_valid s course teacher p.1 p.2 group) =
        (tss.find? (fun sl => is_valid s course teacher r sl group)).map
          (fun sl => (r, sl)) := by
      rw [List.find?_map]; rfl
    simp only [find_room_slot, find_slot, List.flatMap_cons, List.find?_append,
      hmap]
    rcases h : tss.find? (fun sl => is_valid s course teacher r sl group)
        with _ | sl
    · exact ih
    · rfl

theorem find_triple_eq_find? (s : SolverState) (course : Course)
    (group : Group) (teachers : List Teacher) (rooms : List Room)
    (tss : List TimeSlot) :
    find_triple s course group teachers rooms tss =
      (triples teachers rooms tss).find?
        (fun x => is_valid s course x.1 x.2.1 x.2.2 group) := by
  induction teachers with
  | nil => rfl
  | cons t ts ih =>
    have hlist : (rooms.flatMap (fun r => tss.map (fun sl => ((t : Teacher), r, sl)))) =
        ((rooms.flatMap (fun r => tss.map (fun sl => (r, sl)))).map
          (fun p => (t, p.1, p.2))) := by
      simp only [List.map_flatMap, List.map_map]
      rfl
    have hmap : (rooms.flatMap (fun r => tss.map (fun sl =>
          ((t : Teacher), r, sl)))).find?
        (fun x => is_valid s course x.1 x.2.1 x.2.2 group) =
        ((rooms.flatMap (fun r => tss.map (fun sl => (r, sl)))).find?
          (fun p => is_valid s course t p.1 p.2 group)).map
            (fun p => (t, p.1, p.2)) := by
      rw [hlist, List.find?_map]; rfl
    simp only [find_triple, triples, List.flatMap_cons, List.find?_append, hmap]
    rw [find_room_slot_eq_find?]
    rcases h : (rooms.flatMap (fun r => tss.map (fun sl => (r, sl)))).find?
        (fun p => is_valid s course t p.1 p.2 group) with _ | p
    · rw [h]; exact ih
    · obtain ⟨r, sl⟩ := p
      rw [h]; rfl

/-- C5: `assign_session` is exactly the spec's two-pass policy: pass 1
enumerates teacher × room × timeslot in nested order with the trial set
restricted to the preferred teacher when one is recorded, committing the
first accepted triple; pass 2 runs only if pass 1 exhausted all
combinations while a preferred teacher was restricting the search, and
re-enumerates with the unrestricted reshuffled teacher list; the call
fails only when both passes exhaust without success. -/
theorem assign_session_two_pass (sh1 sh2 : List Teacher) (course : Course)
    (group : Group) (s : SolverState) :
    assign_session sh1 sh2 course group s =
      assign_session_spec_model sh1 sh2 course group s := by
  unfold assign_session assign_session_spec_model
  rcases hm : s.course_teacher_map course.code with _ | tid
  · simp only [hm]
    rw [find_triple_eq_find?]
    simp
  · by_cases ht : tid = ""
    · subst ht
      simp only [hm, if_pos rfl, if_neg (by simp : ¬("" : String) ≠ "")]
      rw [find_triple_eq_find?]
      simp
    · simp only [hm, if_pos ht, if_neg ht]
      rw [find_triple_eq_find?, find_triple_eq_find?]
      have hb : (tid != "") = true := by simpa using ht
      simp only [hb, if_pos rfl]
      rfl

theorem find_slot_sound {s : SolverState} {course : Course} {group : Group}
    {teacher : Teacher} {room : Room} {tss : List TimeSlot} {sl : TimeSlot}
    (h : find_slot s course group teacher room tss = some sl) :
    sl ∈ tss ∧ is_valid s course teacher room sl group = true := by
  unfold find_slot at h
  have h2 := List.find?_some h
  exact ⟨List.mem_of_find?_eq_some h, by simpa using h2⟩

theorem find_room_slot_sound {s : SolverState} {course : Course}
    {group : Group} {teacher : Teacher} {tss : List TimeSlot} :
    ∀ {rooms : List Room} {r : Room} {sl : TimeSlot},
      find_room_slot s course group teacher rooms tss = some (r, sl) →
      r ∈ rooms ∧ sl ∈ tss ∧ is_valid s course teacher r sl group = true := by
  intro rooms
  induction rooms with
  | nil => intro r sl h; simp [find_room_slot] at h
  | cons r0 rs ih =>
    intro r sl h
    simp only [find_room_slot] at h
    rcases hf : find_slot s course group teacher r0 tss with _ | sl0
    · rw [hf] at h
      obtain ⟨h1, h2, h3⟩ := ih h
      exact ⟨List.mem_cons_of_mem _ h1, h2, h3⟩
    · rw [hf] at h
      obtain ⟨rfl, rfl⟩ : r0 = r ∧ sl0 = sl := by
        simpa [Prod.ext_iff] using h
      obtain ⟨h2, h3⟩ := find_slot_sound hf
      exact ⟨List.mem_cons_self _ _, h2, h3⟩

theorem find_triple_sound {s : SolverState} {course : Course} {group : Group}
    {rooms : List Room} {tss : List TimeSlot} :
    ∀ {teachers : List Teacher} {t : Teacher} {r : Room} {sl : TimeSlot},
      find_triple s course group teachers rooms tss = some (t, r, sl) →
      t ∈ teachers ∧ r ∈ rooms ∧ sl ∈ tss ∧
        is_valid s course t r sl group = true := by
  intro teachers
  induction teachers with
  | nil => intro t r sl h; simp [find_triple] at h
  | cons t0 ts ih =>
    intro t r sl h
    simp only [find_triple] at h
    rcases hf : find_room_slot s course group t0 rooms tss with _ | p
    · rw [hf] at h
      obtain ⟨h1, h2, h3, h4⟩ := ih h
      exact ⟨List.mem_cons_of_mem _ h1, h2, h3, h4⟩
    · obtain ⟨r0, sl0⟩ := p
      rw [hf] at h
      obtain ⟨rfl, rfl, rfl⟩ : t0 = t ∧ r0 = r ∧ sl0 = sl := by
        simpa [Prod.ext_iff] using h
      obtain ⟨h2, h3, h4⟩ := find_room_slot_sound hf
      exact ⟨List.mem_cons_self _ _, h2, h3, h4⟩

theorem commit_course_teacher_map_some {s : SolverState} {course : Course}
    {group : Group} {teacher : Teacher} {room : Room} {timeslot : TimeSlot}
    {b : Bool} {code tid : String}
    (h : s.course_teacher_map code = some tid) :
    (commit s course group teacher room timeslot b).course_teacher_map code =
      some tid := by
  rcases b with _ | _
  · exact h
  · simp only [commit, update_assignments, record_preferred]
    rcases hn : (s.course_teacher_map course.code).isNone with _ | _
    · simpa [hn] using h
    · simp only [hn, if_pos rfl]
      by_cases hc : code = course.code
      · subst hc
        rw [Option.isNone_iff_eq_none] at hn
        rw [hn] at h
        exact absurd h (by simp)
      · simpa [hc] using h

theorem commit_course_teacher_map_frame {s : SolverState} {course : Course}
    {group : Group} {teacher : Teacher} {room : Room} {timeslot : TimeSlot}
    {b : Bool} {code : String} (h : code ≠ course.code) :
    (commit s course group teacher room timeslot b).course_teacher_map code =
      s.course_teacher_map code := by
  rcases b with _ | _
  · rfl
  · simp only [commit, update_assignments, record_preferred]
    rcases hn : (s.course_teacher_map course.code).isNone with _ | _
    · simp [hn]
    · simp [hn, h]

theorem commit_course_teacher_map_sets {s : SolverState} {course : Course}
    {group : Group} {teacher : Teacher} {room : Room} {timeslot : TimeSlot}
    (h : s.course_teacher_map course.code = none) :
    (commit s course group teacher room timeslot true).course_teacher_map
      course.code = some teacher.id := by
  simp [commit, update_assignments, record_preferred, h]

theorem commit_course_teacher_map_false (s : SolverState) (course : Course)
    (group : Group) (teacher : Teacher) (room : Room) (timeslot : TimeSlot) :
    (commit s course group teacher room timeslot false).course_teacher_map =
      s.course_teacher_map := rfl

/-- C6: a successful `assign_session` never overwrites an existing
preferred-teacher entry (pass 2 commits included), sets the entry for the
scheduled course at the first successful placement (to the id of the
teacher found in the unrestricted pass-1 list), and leaves every other
course's entry unchanged. -/
theorem assign_session_preferred_once (sh1 sh2 : List Teacher)
    (course : Course) (group : Group) (s s' : SolverState)
    (h : assign_session sh1 sh2 course group s = some s') :
    (∀ code tid, s.course_teacher_map code = some tid →
      s'.course_teacher_map code = some tid) ∧
    (s.course_teacher_map course.code = none →
      ∃ t ∈ sh1, s'.course_teacher_map course.code = some t.id) ∧
    (∀ code, code ≠ course.code →
      s'.course_teacher_map code = s.course_teacher_map code) := by
  unfold assign_session at h
  rcases hm : s.course_teacher_map course.code with _ | tid <;>
    simp only [hm] at h
  · rcases hf : find_triple s course group sh1
        (get_rooms_for_course course s.rooms) s.timeslots with _ | x
    · rw [hf] at h; exact absurd h (by simp)
    · obtain ⟨t, r, sl⟩ := x
      rw [hf] at h
      obtain rfl : commit s course group t r sl true = s' := by
        simpa using h
      refine ⟨fun code tid' hc => commit_course_teacher_map_some hc,
        fun _ => ⟨t, (find_triple_sound hf).1, commit_course_teacher_map_sets hm⟩,
        fun code hc => commit_course_teacher_map_frame hc⟩
  · by_cases ht : tid = ""
    · rw [if_neg (by simp [ht])] at h
      rcases hf : find_triple s course group sh1
          (get_rooms_for_course course s.rooms) s.timeslots with _ | x
      · rw [hf] at h; exact absurd h (by simp)
      · obtain ⟨t, r, sl⟩ := x
        rw [hf] at h
        obtain rfl : commit s course group t r sl true = s' := by
          simpa using h
        refine ⟨fun code tid' hc => commit_course_teacher_map_some hc,
          fun hn => absurd hn (by simp [hm]),
          fun code hc => commit_course_teacher_map_frame hc⟩
    · rw [if_pos ht] at h
      rcases hf : find_triple s course group
          (s.teachers.filter (fun t => t.id == tid))
          (get_rooms_for_course course s.rooms) s.timeslots with _ | x
      · rw [hf] at h
        rcases hf2 : find_triple s course group sh2
            (get_rooms_for_course course s.rooms) s.timeslots with _ | x2
        · rw [hf2] at h; exact absurd h (by simp)
        · obtain ⟨t, r, sl⟩ := x2
          rw [hf2] at h
          obtain rfl : commit s course group t r sl false = s' := by
            simpa using h
          rw [commit_course_teacher_map_false]
          exact ⟨fun _ _ hc => hc, fun hn => absurd hn (by simp [hm]),
            fun _ _ => rfl⟩
      · obtain ⟨t, r, sl⟩ := x
        rw [hf] at h
        obtain rfl : commit s course group t r sl true = s' := by
          simpa using h
        refine ⟨fun code tid' hc => commit_course_teacher_map_some hc,
          fun hn => absurd hn (by simp [hm]),
          fun code hc => commit_course_teacher_map_frame hc⟩

/-- The five catalog collections held by the solver object are unchanged
between two states. -/
def same_catalog (s s' : SolverState) : Prop :=
  s'.courses = s.courses ∧ s'.teachers = s.teachers ∧ s'.rooms = s.rooms ∧
    s'.timeslots = s.timeslots ∧ s'.groups = s.groups

theorem same_catalog_refl (s : SolverState) : same_catalog s s :=
  ⟨rfl, rfl, rfl, rfl, rfl⟩

theorem same_catalog_trans {s1 s2 s3 : SolverState}
    (h1 : same_catalog s1 s2) (h2 : same_catalog s2 s3) :
    same_catalog s1 s3 := by
  obtain ⟨a1, a2, a3, a4, a5⟩ := h1
  obtain ⟨b1, b2, b3, b4, b5⟩ := h2
  exact ⟨b1.trans a1, b2.trans a2, b3.trans a3, b4.trans a4, b5.trans a5⟩

theorem commit_catalog (s : SolverState) (course : Course) (group : Group)
    (teacher : Teacher) (room : Room) (timeslot : TimeSlot) (b : Bool) :
    same_catalog s (commit s course group teacher room timeslot b) := by
  rcases b with _ | _
  · exact ⟨rfl, rfl, rfl, rfl, rfl⟩
  · simp only [commit, update_assignments, record_preferred]
    split_ifs <;> exact ⟨rfl, rfl, rfl, rfl, rfl⟩

theorem commit_solution (s : SolverState) (course : Course) (group : Group)
    (teacher : Teacher) (room : Room) (timeslot : TimeSlot) (b : Bool) :
    (commit s course group teacher room timeslot b).solution =
      s.solution ++ [mk_assignment course teacher room timeslot group] := by
  rcases b with _ | _
  · rfl
  · simp only [commit, update_assignments, record_preferred]
    split_ifs <;> rfl

/-- A successful `assign_session` call is a `commit` of some candidate:
the teacher comes from the pass-1 shuffled list, the pass-2 shuffled
list, or the catalog teacher list (the restricted pass); the room comes
from the catalog rooms, the timeslot from the catalog timeslots, and
`is_valid` accepted the candidate on the pre-call state. -/
theorem assign_session_some {sh1 sh2 : List Teacher} {course : Course}
    {group : Group} {s s' : SolverState}
    (h : assign_session sh1 sh2 course group s = some s') :
    ∃ t r sl b, (t ∈ sh1 ∨ t ∈ sh2 ∨ t ∈ s.teachers) ∧
      r ∈ s.rooms ∧ sl ∈ s.timeslots ∧
      is_valid s course t r sl group = true ∧
      s' = commit s course group t r sl b := by
  unfold assign_session at h
  rcases hm : s.course_teacher_map course.code with _ | tid <;>
    simp only [hm] at h
  · rcases hf : find_triple s course group sh1
        (get_rooms_for_course course s.rooms) s.timeslots with _ | x
    · rw [hf] at h; exact absurd h (by simp)
    · obtain ⟨t, r, sl⟩ := x
      rw [hf] at h
      obtain ⟨h1, h2, h3, h4⟩ := find_triple_sound hf
      exact ⟨t, r, sl, true, Or.inl h1, List.mem_of_mem_filter h2, h3, h4,
        by simpa using h.symm⟩
  · by_cases ht : tid = ""
    · rw [if_neg (by simp [ht])] at h
      rcases hf : find_triple s course group sh1
          (get_rooms_for_course course s.rooms) s.timeslots with _ | x
      · rw [hf] at h; exact absurd h (by simp)
      · obtain ⟨t, r, sl⟩ := x
        rw [hf] at h
        obtain ⟨h1, h2, h3, h4⟩ := find_triple_sound hf
        exact ⟨t, r, sl, true, Or.inl h1, List.mem_of_mem_filter h2, h3, h4,
          by simpa using h.symm⟩
    · rw [if_pos ht] at h
      rcases hf : find_triple s course group
          (s.teachers.filter (fun t => t.id == tid))
          (get_rooms_for_course course s.rooms) s.timeslots with _ | x
      · rw [hf] at h
        rcases hf2 : find_triple s course group sh2
            (get_rooms_for_course course s.rooms) s.timeslots with _ | x2
        · rw [hf2] at h; exact absurd h (by simp)
        · obtain ⟨t, r, sl⟩ := x2
          rw [hf2] at h
          obtain ⟨h1, h2, h3, h4⟩ := find_triple_sound hf2
          exact ⟨t, r, sl, false, Or.inr (Or.inl h1),
            List.mem_of_mem_filter h2, h3, h4, by simpa using h.symm⟩
      · obtain ⟨t, r, sl⟩ := x
        rw [hf] at h
        obtain ⟨h1, h2, h3, h4⟩ := find_triple_sound hf
        exact ⟨t, r, sl, true, Or.inr (Or.inr (List.mem_of_mem_filter h1)),
          List.mem_of_mem_filter h2, h3, h4, by simpa using h.symm⟩

theorem assign_session_catalog {sh1 sh2 : List Teacher} {course : Course}
    {group : Group} {s s' : SolverState}
    (h : assign_session sh1 sh2 course group s = some s') :
    same_catalog s s' := by
  obtain ⟨t, r, sl, b, -, -, -, -, rfl⟩ := assign_session_some h
  exact commit_catalog s course group t r sl b

theorem schedule_sessions_catalog (oracle : Nat → List Teacher)
    (course : Course) (group : Group) :
    ∀ (n : Nat) (s : SolverState) (k : Nat),
      same_catalog s (schedule_sessions oracle course group n s k).1 := by
  intro n
  induction n with
  | zero => intro s k; exact same_catalog_refl s
  | succ m ih =>
    intro s k
    simp only [schedule_sessions]
    rcases ha : assign_session (oracle k) (oracle (k + 1)) course group s
        with _ | s'
    · exact same_catalog_refl s
    · exact same_catalog_trans (assign_session_catalog ha) (ih s' (k + 2))

theorem schedule_groups_catalog (oracle : Nat → List Teacher)
    (course : Course) :
    ∀ (gs : List Group) (s : SolverState) (k : Nat),
      same_catalog s (schedule_groups oracle course gs s k).1 := by
  intro gs
  induction gs with
  | nil => intro s k; exact same_catalog_refl s
  | cons g gs' ih =>
    intro s k
    simp only [schedule_groups]
    rcases hs : schedule_sessions oracle course g course.sessions_per_week s k
        with ⟨s', k', ok⟩
    have h1 : same_catalog s s' := by
      have := schedule_sessions_catalog oracle course g
        course.sessions_per_week s k
      rwa [hs] at this
    rcases ok with _ | _
    · exact h1
    · exact same_catalog_trans h1 (ih s' k')

theorem schedule_courses_catalog (oracle : Nat → List Teacher)
    (groups : List Group) :
    ∀ (cs : List Course) (s : SolverState) (k : Nat),
      same_catalog s (schedule_courses oracle groups cs s k).1 := by
  intro cs
  induction cs with
  | nil => intro s k; exact same_catalog_refl s
  | cons c cs' ih =>
    intro s k
    simp only [schedule_courses]
    rcases hg : schedule_groups oracle c groups s k with ⟨s', k', ok⟩
    have h1 : same_catalog s s' := by
      have := schedule_groups_catalog oracle c groups s k
      rwa [hg] at this
    rcases ok with _ | _
    · exact h1
    · exact same_catalog_trans h1 (ih s' k')

/-- C9: a `solve` run never mutates the five catalog collections held by
the solver: the state after the call carries the same course, teacher,
room, timeslot and group sequences, record for record and in order, as
the state before it (the randomized iteration acts on working copies,
passed here as `shuffled_courses`, `shuffled_groups` and the oracle). -/
theorem solve_preserves_catalog (oracle : Nat → List Teacher)
    (shuffled_courses : List Course) (shuffled_groups : List Group)
    (s : SolverState) :
    (solve oracle shuffled_courses shuffled_groups s).2.courses = s.courses ∧
    (solve oracle shuffled_courses shuffled_groups s).2.teachers = s.teachers ∧
    (solve oracle shuffled_courses shuffled_groups s).2.rooms = s.rooms ∧
    (solve oracle shuffled_courses shuffled_groups s).2.timeslots = s.timeslots ∧
    (solve oracle shuffled_courses shuffled_groups s).2.groups = s.groups := by
  have := schedule_courses_catalog oracle shuffled_groups shuffled_courses s 0
  unfold solve
  rcases hc : schedule_courses oracle shuffled_groups shuffled_courses s 0
      with ⟨s', k', ok⟩
  rw [hc] at this
  rcases ok with _ | _ <;> exact this

theorem schedule_sessions_fail (oracle : Nat → List Teacher)
    (course : Course) (group : Group) :
    ∀ (j : Nat) (n : Nat) (s s3 : SolverState) (k k3 : Nat),
      schedule_sessions oracle course group j s k = (s3, k3, true) →
      j < n →
      assign_session (oracle k3) (oracle (k3 + 1)) course group s3 = none →
      (schedule_sessions oracle course group n s k).2.2 = false := by
  intro j
  induction j with
  | zero =>
    intro n s s3 k k3 h hlt hfail
    obtain ⟨rfl, rfl⟩ : s = s3 ∧ k = k3 := by
      simpa [schedule_sessions, Prod.ext_iff] using h
    obtain ⟨m, rfl⟩ : ∃ m, n = m + 1 := ⟨n - 1, by omega⟩
    simp only [schedule_sessions, hfail]
  | succ j' ih =>
    intro n s s3 k k3 h hlt hfail
    simp only [schedule_sessions] at h
    rcases ha : assign_session (oracle k) (oracle (k + 1)) course group s
        with _ | s'
    · rw [ha] at h
      exact absurd h (by simp [Prod.ext_iff])
    · rw [ha] at h
      obtain ⟨m, rfl⟩ : ∃ m, n = m + 1 := ⟨n - 1, by omega⟩
      simp only [schedule_sessions, ha]
      exact ih m s' s3 (k + 2) k3 h (by omega) hfail

theorem schedule_groups_fail (oracle : Nat → List Teacher) (course : Course)
    (g : Group) (gs2 : List Group) :
    ∀ (gs1 : List Group) (s s2 : SolverState) (k k2 : Nat),
      schedule_groups oracle course gs1 s k = (s2, k2, true) →
      (schedule_sessions oracle course g course.sessions_per_week s2 k2).2.2 =
        false →
      (schedule_groups oracle course (gs1 ++ g :: gs2) s k).2.2 = false := by
  intro gs1
  induction gs1 with
  | nil =>
    intro s s2 k k2 h hfail
    obtain ⟨rfl, rfl⟩ : s = s2 ∧ k = k2 := by
      simpa [schedule_groups, Prod.ext_iff] using h
    simp only [List.nil_append, schedule_groups]
    rcases hs : schedule_sessions oracle course g course.sessions_per_week s k
        with ⟨s', k', ok⟩
    rw [hs] at hfail
    rcases ok with _ | _
    · rfl
    · exact absurd hfail (by simp)
  | cons g1 gs1' ih =>
    intro s s2 k k2 h hfail
    simp only [schedule_groups] at h
    rcases hs : schedule_sessions oracle course g1 course.sessions_per_week s k
        with ⟨s', k', ok⟩
    rw [hs] at h
    rcases ok with _ | _
    · exact absurd h (by simp [Prod.ext_iff])
    · simp only [List.cons_append, schedule_groups, hs]
      exact ih s' s2 k' k2 h hfail

theorem schedule_courses_fail (oracle : Nat → List Teacher)
    (groups : List Group) (c : Course) (cs2 : List Course) :
    ∀ (cs1 : List Course) (s s1 : SolverState) (k k1 : Nat),
      schedule_courses oracle groups cs1 s k = (s1, k1, true) →
      (schedule_groups oracle c groups s1 k1).2.2 = false →
      (schedule_courses oracle groups (cs1 ++ c :: cs2) s k).2.2 = false := by
  intro cs1
  induction cs1 with
  | nil =>
    intro s s1 k k1 h hfail
    obtain ⟨rfl, rfl⟩ : s = s1 ∧ k = k1 := by
      simpa [schedule_courses, Prod.ext_iff] using h
    simp only [List.nil_append, schedule_courses]
    rcases hg : schedule_groups oracle c groups s k with ⟨s', k', ok⟩
    rw [hg] at hfail
    rcases ok with _ | _
    · rfl
    · exact absurd hfail (by simp)
  | cons c1 cs1' ih =>
    intro s s1 k k1 h hfail
    simp only [schedule_courses] at h
    rcases hg : schedule_groups oracle c1 groups s k with ⟨s', k', ok⟩
    rw [hg] at h
    rcases ok with _ | _
    · exact absurd h (by simp [Prod.ext_iff])
    · simp only [List.cons_append, schedule_courses, hg]
      exact ih s' s1 k' k1 h hfail

/-- C3: all-or-nothing failure.  If the run reaches a (course, group)
session whose `assign_session` call fails — after a prefix `cs1` of the
shuffled course list, a prefix `gs1` of the shuffled group list for the
failing course, and `j` of that pair's sessions succeeded — then `solve`
returns `None`: no solution value is produced and the partially built
schedule is not surfaced as a result, the remaining courses `cs2` and
groups `gs2` never being attempted. -/
theorem solve_all_or_nothing (oracle : Nat → List Teacher)
    (cs1 cs2 : List Course) (c : Course) (gs1 gs2 : List Group) (g : Group)
    (s s1 s2 s3 : SolverState) (k1 k2 k3 : Nat) (j : Nat)
    (h1 : schedule_courses oracle (gs1 ++ g :: gs2) cs1 s 0 = (s1, k1, true))
    (h2 : schedule_groups oracle c gs1 s1 k1 = (s2, k2, true))
    (h3 : schedule_sessions oracle c g j s2 k2 = (s3, k3, true))
    (h4 : j < c.sessions_per_week)
    (h5 : assign_session (oracle k3) (oracle (k3 + 1)) c g s3 = none) :
    (solve oracle (cs1 ++ c :: cs2) (gs1 ++ g :: gs2) s).1 = none := by
  have hsess : (schedule_sessions oracle c g c.sessions_per_week s2 k2).2.2 =
      false :=
    schedule_sessions_fail oracle c g j c.sessions_per_week s2 s3 k2 k3 h3 h4 h5
  have hgrp : (schedule_groups oracle c (gs1 ++ g :: gs2) s1 k1).2.2 = false :=
    schedule_groups_fail oracle c g gs2 gs1 s1 s2 k1 k2 h2 hsess
  have hcrs : (schedule_courses oracle (gs1 ++ g :: gs2) (cs1 ++ c :: cs2)
      s 0).2.2 = false :=
    schedule_courses_fail oracle (gs1 ++ g :: gs2) c cs2 cs1 s s1 0 k1 h1 hgrp
  unfold solve
  rcases hc : schedule_courses oracle (gs1 ++ g :: gs2) (cs1 ++ c :: cs2) s 0
      with ⟨s', k', ok⟩
  rw [hc] at hcrs
  rcases ok with _ | _
  · rfl
  · exact absurd hcrs (by simp)

/-- Number of assignments of a solution list for one (course, group)
pair, matched the way the solver stamps them (by course code and group
name). -/
def session_count (sol : List Assignment) (course : Course) (g : Group) :
    Nat :=
  (sol.filter (fun a => a.course_code == course.code &&
    a.group_name == g.name)).length

theorem session_count_commit (s : SolverState) (c' : Course) (g' : Group)
    (t : Teacher) (r : Room) (sl : TimeSlot) (b : Bool) (c : Course)
    (g : Group) :
    session_count (commit s c' g' t r sl b).solution c g =
      session_count s.solution c g +
        (if c'.code = c.code ∧ g'.name = g.name then 1 else 0) := by
  unfold session_count
  rw [commit_solution, List.filter_append, List.length_append]
  congr 1
  by_cases h : c'.code = c.code ∧ g'.name = g.name
  · simp [mk_assignment, h.1, h.2]
  · rw [if_neg h]
    rcases not_and_or.mp h with h' | h' <;> simp [mk_assignment, h']

theorem session_count_assign {sh1 sh2 : List Teacher} {c' : Course}
    {g' : Group} {s s' : SolverState}
    (h : assign_session sh1 sh2 c' g' s = some s') (c : Course) (g : Group) :
    session_count s'.solution c g =
      session_count s.solution c g +
        (if c'.code = c.code ∧ g'.name = g.name then 1 else 0) := by
  obtain ⟨t, r, sl, b, -, -, -, -, rfl⟩ := assign_session_some h
  exact session_count_commit s c' g' t r sl b c g

theorem session_count_sessions (oracle : Nat → List Teacher) (c' : Course)
    (g' : Group) :
    ∀ (n : Nat) (s s' : SolverState) (k k' : Nat),
      schedule_sessions oracle c' g' n s k = (s', k', true) →
      ∀ (c : Course) (g : Group),
        session_count s'.solution c g = session_count s.solution c g +
          (if c'.code = c.code ∧ g'.name = g.name then n else 0) := by
  intro n
  induction n with
  | zero =>
    intro s s' k k' h c g
    obtain ⟨rfl, -⟩ : s = s' ∧ k = k' := by
      simpa [schedule_sessions, Prod.ext_iff] using h
    simp
  | succ m ih =>
    intro s s' k k' h c g
    simp only [schedule_sessions] at h
    rcases ha : assign_session (oracle k) (oracle (k + 1)) c' g' s with _ | s0
    · rw [ha] at h; exact absurd h (by simp [Prod.ext_iff])
    · rw [ha] at h
      have h1 := session_count_assign ha c g
      have h2 := ih s0 s' (k + 2) k' h c g
      rw [h2, h1]
      by_cases hcg : c'.code = c.code ∧ g'.name = g.name <;>
        simp [hcg] <;> omega

theorem session_count_groups (oracle : Nat → List Teacher) (c' : Course) :
    ∀ (gs : List Group) (s s' : SolverState) (k k' : Nat),
      schedule_groups oracle c' gs s k = (s', k', true) →
      ∀ (c : Course) (g : Group),
        session_count s'.solution c g = session_count s.solution c g +
          (if c'.code = c.code then
            (gs.countP (fun g0 => g0.name == g.name)) * c'.sessions_per_week
          else 0) := by
  intro gs
  induction gs with
  | nil =>
    intro s s' k k' h c g
    obtain ⟨rfl, -⟩ : s = s' ∧ k = k' := by
      simpa [schedule_groups, Prod.ext_iff] using h
    simp
  | cons g1 gs' ih =>
    intro s s' k k' h c g
    simp only [schedule_groups] at h
    rcases hs : schedule_sessions oracle c' g1 c'.sessions_per_week s k
        with ⟨s0, k0, ok⟩
    rw [hs] at h
    rcases ok with _ | _
    · exact absurd h (by simp [Prod.ext_iff])
    · have h1 := session_count_sessions oracle c' g1 c'.sessions_per_week
        s s0 k k0 hs c g
      have h2 := ih s0 s' k0 k' h c g
      rw [h2, h1, List.countP_cons]
      by_cases hc : c'.code = c.code
      · by_cases hg : g1.name = g.name <;>
          simp [hc, hg, Nat.add_mul] <;> omega
      · simp [hc]

theorem session_count_courses (oracle : Nat → List Teacher)
    (gs : List Group) :
    ∀ (cs : List Course) (s s' : SolverState) (k k' : Nat),
      schedule_courses oracle gs cs s k = (s', k', true) →
      ∀ (c : Course) (g : Group),
        session_count s'.solution c g = session_count s.solution c g +
          (cs.map (fun c0 => if c0.code = c.code then
            (gs.countP (fun g0 => g0.name == g.name)) * c0.sessions_per_week
          else 0)).sum := by
  intro cs
  induction cs with
  | nil =>
    intro s s' k k' h c g
    obtain ⟨rfl, -⟩ : s = s' ∧ k = k' := by
      simpa [schedule_courses, Prod.ext_iff] using h
    simp
  | cons c1 cs' ih =>
    intro s s' k k' h c g
    simp only [schedule_courses] at h
    rcases hg : schedule_groups oracle c1 gs s k with ⟨s0, k0, ok⟩
    rw [hg] at h
    rcases ok with _ | _
    · exact absurd h (by simp [Prod.ext_iff])
    · have h1 := session_count_groups oracle c1 gs s s0 k k0 hg c g
      have h2 := ih s0 s' k0 k' h c g
      rw [h2, h1, List.map_cons, List.sum_cons]
      omega

theorem countP_name_eq_one {gs : List Group} {g : Group}
    (hnd : (gs.map (fun g0 => g0.name)).Nodup) (hg : g ∈ gs) :
    gs.countP (fun g0 => g0.name == g.name) = 1 := by
  have h1 : gs.countP (fun g0 => g0.name == g.name) =
      (gs.map (fun g0 => g0.name)).count g.name := by
    rw [List.count, List.countP_map]
    rfl
  rw [h1]
  exact List.count_eq_one_of_mem hnd
    (List.mem_map_of_mem (fun g0 => g0.name) hg)

theorem sum_code_matches (K : Nat) {c : Course} :
    ∀ {cs : List Course}, (cs.map (fun c0 => c0.code)).Nodup → c ∈ cs →
      (cs.map (fun c0 => if c0.code = c.code then K * c0.sessions_per_week
        else 0)).sum = K * c.sessions_per_week := by
  intro cs
  induction cs with
  | nil => intro _ hc; exact absurd hc (by simp)
  | cons c1 cs' ih =>
    intro hnd hc
    rw [List.map_cons, List.sum_cons]
    rcases List.nodup_cons.mp hnd with ⟨hnotin, hnd'⟩
    by_cases h : c1.code = c.code
    · have hcc : c = c1 := by
        rcases List.mem_cons.mp hc with h' | h'
        · exact h'
        · exfalso
          apply hnotin
          show c1.code ∈ cs'.map (fun c0 => c0.code)
          rw [h]
          exact List.mem_map_of_mem (fun c0 => c0.code) h'
      subst hcc
      have hrest : (cs'.map (fun c0 => if c0.code = c.code then
          K * c0.sessions_per_week else 0)).sum = 0 := by
        apply List.sum_eq_zero
        intro x hx
        obtain ⟨c0, hc0, rfl⟩ := List.mem_map.mp hx
        have hne : c0.code ≠ c.code := by
          intro he
          apply hnotin
          show c.code ∈ cs'.map (fun c0 => c0.code)
          rw [← he]
          exact List.mem_map_of_mem (fun c0 => c0.code) hc0
        simp [hne]
      rw [if_pos h, hrest]
      omega
    · have hc' : c ∈ cs' := by
        rcases List.mem_cons.mp hc with h' | h'
        · exact absurd (h' ▸ rfl) h
        · exact h'
      rw [if_neg h, ih hnd' hc', Nat.zero_add]

/-- C2: for every (course, group) pair of the input catalog, a successful
`solve` run returns a solution in which the number of assignments stamped
with that course's code and that group's name equals the course's
`sessions_per_week` (assuming catalog well-formedness: distinct courses
have distinct codes and distinct groups distinct names, as the external
record-management layer enforces for codes). -/
theorem solve_session_counts (oracle : Nat → List Teacher)
    (courses : List Course) (teachers : List Teacher) (rooms : List Room)
    (timeslots : List TimeSlot) (groups : List Group)
    (shuffled_courses : List Course) (shuffled_groups : List Group)
    (sol : List Assignment) (c : Course) (g : Group)
    (hpc : shuffled_courses.Perm courses)
    (hpg : shuffled_groups.Perm groups)
    (hndc : (courses.map (fun c0 => c0.code)).Nodup)
    (hndg : (groups.map (fun g0 => g0.name)).Nodup)
    (hc : c ∈ courses) (hg : g ∈ groups)
    (hsol : (solve oracle shuffled_courses shuffled_groups
      (mkSolver courses teachers rooms timeslots groups)).1 = some sol) :
    (sol.filter (fun a => a.course_code == c.code &&
      a.group_name == g.name)).length = c.sessions_per_week := by
  unfold solve at hsol
  rcases hrun : schedule_courses oracle shuffled_groups shuffled_courses
      (mkSolver courses teachers rooms timeslots groups) 0
      with ⟨s', k', ok⟩
  rw [hrun] at hsol
  rcases ok with _ | _
  · exact absurd hsol (by simp)
  · obtain rfl : s'.solution = sol := by simpa using hsol
    have hcount := session_count_courses oracle shuffled_groups
      shuffled_courses (mkSolver courses teachers rooms timeslots groups)
      s' 0 k' hrun c g
    have hinit : session_count
        (mkSolver courses teachers rooms timeslots groups).solution c g = 0 :=
      rfl
    have hK : shuffled_groups.countP (fun g0 => g0.name == g.name) = 1 := by
      rw [hpg.countP_eq]
      exact countP_name_eq_one hndg hg
    have hndc' : (shuffled_courses.map (fun c0 => c0.code)).Nodup :=
      (hpc.map (fun c0 => c0.code)).nodup_iff.mpr hndc
    have hcs : c ∈ shuffled_courses := hpc.mem_iff.mpr hc
    have hsum := sum_code_matches
      (shuffled_groups.countP (fun g0 => g0.name == g.name)) hndc' hcs
    have : session_count s'.solution c g = c.sessions_per_week := by
      rw [hcount, hinit, hsum, hK, Nat.one_mul, Nat.zero_add]
    exact this

/-- No two assignments of the list share the field `f` together with day
and period. -/
def no_share (f : Assignment → String) (sol : List Assignment) : Prop :=
  sol.Pairwise (fun a b =>
    ¬(f a = f b ∧ a.day = b.day ∧ a.period = b.period))

/-- Catalog well-formedness: within each of the three resource
collections, the display field copied into assignments determines the id
the tracker is keyed by. -/
def names_determine_ids (s : SolverState) : Prop :=
  (∀ t1 ∈ s.teachers, ∀ t2 ∈ s.teachers, t1.name = t2.name → t1.id = t2.id) ∧
  (∀ r1 ∈ s.rooms, ∀ r2 ∈ s.rooms,
    r1.room_number = r2.room_number → r1.id = r2.id) ∧
  (∀ g1 ∈ s.groups, ∀ g2 ∈ s.groups, g1.name = g2.name → g1.id = g2.id)

/-- Run invariant tying the solution list to the busy-slot trackers. -/
structure TrackInv (s : SolverState) : Prop where
  teacher_pw : no_share (fun a => a.teacher_name) s.solution
  room_pw : no_share (fun a => a.room_number) s.solution
  group_pw : no_share (fun a => a.group_name) s.solution
  types : ∀ a ∈ s.solution, a.course_type = a.room_type
  teacher_link : ∀ a ∈ s.solution, ∃ t ∈ s.teachers,
    t.name = a.teacher_name ∧ (a.day, a.period) ∈ s.teacher_assignments t.id
  room_link : ∀ a ∈ s.solution, ∃ r ∈ s.rooms,
    r.room_number = a.room_number ∧ (a.day, a.period) ∈ s.room_assignments r.id
  group_link : ∀ a ∈ s.solution, ∃ g ∈ s.groups,
    g.name = a.group_name ∧ (a.day, a.period) ∈ s.group_assignments g.id

theorem commit_trackers (s : SolverState) (course : Course) (group : Group)
    (t : Teacher) (r : Room) (sl : TimeSlot) (b : Bool) :
    ((commit s course group t r sl b).teacher_assignments = fun x =>
        if x = t.id then s.teacher_assignments x ++ [(sl.day, sl.period)]
        else s.teacher_assignments x) ∧
    ((commit s course group t r sl b).room_assignments = fun x =>
        if x = r.id then s.room_assignments x ++ [(sl.day, sl.period)]
        else s.room_assignments x) ∧
    ((commit s course group t r sl b).group_assignments = fun x =>
        if x = group.id then s.group_assignments x ++ [(sl.day, sl.period)]
        else s.group_assignments x) := by
  rcases b with _ | _
  · exact ⟨rfl, rfl, rfl⟩
  · refine ⟨?_, ?_, ?_⟩ <;>
      simp only [commit, update_assignments, record_preferred] <;>
      split_ifs <;> rfl

theorem mem_commit_tracker_of_mem {s : SolverState} {course : Course}
    {group : Group} {t : Teacher} {r : Room} {sl : TimeSlot} {b : Bool}
    {x : String} {p : String × Int} :
    (p ∈ s.teacher_assignments x →
      p ∈ (commit s course group t r sl b).teacher_assignments x) ∧
    (p ∈ s.room_assignments x →
      p ∈ (commit s course group t r sl b).room_assignments x) ∧
    (p ∈ s.group_assignments x →
      p ∈ (commit s course group t r sl b).group_assignments x) := by
  obtain ⟨e1, e2, e3⟩ := commit_trackers s course group t r sl b
  rw [e1, e2, e3]
  refine ⟨fun h => ?_, fun h => ?_, fun h => ?_⟩ <;> dsimp only <;>
    split_ifs <;> first
      | exact List.mem_append_left _ h
      | exact h

/-- Committing a candidate accepted by `is_valid` preserves the run
invariant, provided the candidate's teacher, room and group come from the
catalog and display fields determine ids there. -/
theorem commit_inv {s : SolverState} {course : Course} {group : Group}
    {t : Teacher} {r : Room} {sl : TimeSlot} {b : Bool}
    (hinj : names_determine_ids s)
    (ht : t ∈ s.teachers) (hr : r ∈ s.rooms) (hg : group ∈ s.groups)
    (hv : is_valid s course t r sl group = true)
    (hinv : TrackInv s) : TrackInv (commit s course group t r sl b) := by
  obtain ⟨hfree_t, hfree_r, hfree_g, htype, -, -, -⟩ :=
    (is_valid_eq_true s course t r sl group).mp hv
  obtain ⟨et, er, eg⟩ := commit_trackers s course group t r sl b
  obtain ⟨ec1, ec2, ec3, ec4, ec5⟩ := commit_catalog s course group t r sl b
  have hsol := commit_solution s course group t r sl b
  constructor
  · rw [hsol]
    unfold no_share
    rw [List.pairwise_append]
    refine ⟨hinv.teacher_pw, List.pairwise_singleton _ _, ?_⟩
    intro a ha a' ha'
    rw [List.mem_singleton] at ha'
    subst ha'
    rintro ⟨hn, hd, hp⟩
    obtain ⟨t', ht', hn', hmem'⟩ := hinv.teacher_link a ha
    have hid : t'.id = t.id := hinj.1 t' ht' t ht (by rw [hn']; exact hn)
    apply hfree_t
    have : ((sl.day, sl.period) : String × Int) = (a.day, a.period) := by
      rw [hd, hp]; rfl
    rw [this, ← hid]
    exact hmem'
  · rw [hsol]
    unfold no_share
    rw [List.pairwise_append]
    refine ⟨hinv.room_pw, List.pairwise_singleton _ _, ?_⟩
    intro a ha a' ha'
    rw [List.mem_singleton] at ha'
    subst ha'
    rintro ⟨hn, hd, hp⟩
    obtain ⟨r', hr', hn', hmem'⟩ := hinv.room_link a ha
    have hid : r'.id = r.id := hinj.2.1 r' hr' r hr (by rw [hn']; exact hn)
    apply hfree_r
    have : ((sl.day, sl.period) : String × Int) = (a.day, a.period) := by
      rw [hd, hp]; rfl
    rw [this, ← hid]
    exact hmem'
  · rw [hsol]
    unfold no_share
    rw [List.pairwise_append]
    refine ⟨hinv.group_pw, List.pairwise_singleton _ _, ?_⟩
    intro a ha a' ha'
    rw [List.mem_singleton] at ha'
    subst ha'
    rintro ⟨hn, hd, hp⟩
    obtain ⟨g', hg', hn', hmem'⟩ := hinv.group_link a ha
    have hid : g'.id = group.id := hinj.2.2 g' hg' group hg (by rw [hn']; exact hn)
    apply hfree_g
    have : ((sl.day, sl.period) : String × Int) = (a.day, a.period) := by
      rw [hd, hp]; rfl
    rw [this, ← hid]
    exact hmem'
  · rw [hsol]
    intro a ha
    rcases List.mem_append.mp ha with h' | h'
    · exact hinv.types a h'
    · rw [List.mem_singleton] at h'
      subst h'
      exact htype
  · rw [hsol, ec2]
    intro a ha
    rcases List.mem_append.mp ha with h' | h'
    · obtain ⟨t', ht', hn', hmem'⟩ := hinv.teacher_link a h'
      exact ⟨t', ht', hn', mem_commit_tracker_of_mem.1 hmem'⟩
    · rw [List.mem_singleton] at h'
      subst h'
      refine ⟨t, ht, rfl, ?_⟩
      rw [et]
      simp [mk_assignment]
  · rw [hsol, ec3]
    intro a ha
    rcases List.mem_append.mp ha with h' | h'
    · obtain ⟨r', hr', hn', hmem'⟩ := hinv.room_link a h'
      exact ⟨r', hr', hn', mem_commit_tracker_of_mem.2.1 hmem'⟩
    · rw [List.mem_singleton] at h'
      subst h'
      refine ⟨r, hr, rfl, ?_⟩
      rw [er]
      simp [mk_assignment]
  · rw [hsol, ec5]
    intro a ha
    rcases List.mem_append.mp ha with h' | h'
    · obtain ⟨g', hg', hn', hmem'⟩ := hinv.group_link a h'
      exact ⟨g', hg', hn', mem_commit_tracker_of_mem.2.2 hmem'⟩
    · rw [List.mem_singleton] at h'
      subst h'
      refine ⟨group, hg, rfl, ?_⟩
      rw [eg]
      simp [mk_assignment]

theorem assign_session_inv {sh1 sh2 : List Teacher} {course : Course}
    {group : Group} {s s' : SolverState}
    (h : assign_session sh1 sh2 course group s = some s')
    (hs1 : ∀ t ∈ sh1, t ∈ s.teachers) (hs2 : ∀ t ∈ sh2, t ∈ s.teachers)
    (hg : group ∈ s.groups)
    (hinj : names_determine_ids s) (hinv : TrackInv s) : TrackInv s' := by
  obtain ⟨t, r, sl, b, hmem, hr, -, hv, rfl⟩ := assign_session_some h
  have ht : t ∈ s.teachers := by
    rcases hmem with h' | h' | h'
    · exact hs1 t h'
    · exact hs2 t h'
    · exact h'
  exact commit_inv hinj ht hr hg hv hinv

theorem names_determine_ids_of_same_catalog {s s' : SolverState}
    (hc : same_catalog s s') (h : names_determine_ids s) :
    names_determine_ids s' := by
  obtain ⟨-, e2, e3, -, e5⟩ := hc
  unfold names_determine_ids at *
  rw [e2, e3, e5]
  exact h

theorem schedule_sessions_inv (oracle : Nat → List Teacher) (course : Course)
    (group : Group) :
    ∀ (n : Nat) (s : SolverState) (k : Nat),
      (∀ k' t, t ∈ oracle k' → t ∈ s.teachers) → group ∈ s.groups →
      names_determine_ids s → TrackInv s →
      TrackInv (schedule_sessions oracle course group n s k).1 := by
  intro n
  induction n with
  | zero => intro s k _ _ _ hinv; exact hinv
  | succ m ih =>
    intro s k hor hg hinj hinv
    simp only [schedule_sessions]
    rcases ha : assign_session (oracle k) (oracle (k + 1)) course group s
        with _ | s0
    · exact hinv
    · have hcat := assign_session_catalog ha
      have hinv0 : TrackInv s0 :=
        assign_session_inv ha (fun t h' => hor k t h')
          (fun t h' => hor (k + 1) t h') hg hinj hinv
      exact ih s0 (k + 2)
        (fun k' t h' => hcat.2.1 ▸ hor k' t h')
        (hcat.2.2.2.2 ▸ hg)
        (names_determine_ids_of_same_catalog hcat hinj) hinv0

theorem schedule_groups_inv (oracle : Nat → List Teacher) (course : Course) :
    ∀ (gs : List Group) (s : SolverState) (k : Nat),
      (∀ k' t, t ∈ oracle k' → t ∈ s.teachers) → (∀ g ∈ gs, g ∈ s.groups) →
      names_determine_ids s → TrackInv s →
      TrackInv (schedule_groups oracle course gs s k).1 := by
  intro gs
  induction gs with
  | nil => intro s k _ _ _ hinv; exact hinv
  | cons g gs' ih =>
    intro s k hor hgs hinj hinv
    simp only [schedule_groups]
    rcases hs : schedule_sessions oracle course g course.sessions_per_week s k
        with ⟨s0, k0, ok⟩
    have hcat : same_catalog s s0 := by
      have := schedule_sessions_catalog oracle course g
        course.sessions_per_week s k
      rwa [hs] at this
    have hinv0 : TrackInv s0 := by
      have := schedule_sessions_inv oracle course g
        course.sessions_per_week s k hor (hgs g (List.mem_cons_self _ _))
        hinj hinv
      rwa [hs] at this
    rcases ok with _ | _
    · exact hinv0
    · exact ih s0 k0
        (fun k' t h' => hcat.2.1 ▸ hor k' t h')
        (fun g' hg' => hcat.2.2.2.2 ▸ hgs g' (List.mem_cons_of_mem _ hg'))
        (names_determine_ids_of_same_catalog hcat hinj) hinv0

theorem schedule_courses_inv (oracle : Nat → List Teacher)
    (groups : List Group) :
    ∀ (cs : List Course) (s : SolverState) (k : Nat),
      (∀ k' t, t ∈ oracle k' → t ∈ s.teachers) →
      (∀ g ∈ groups, g ∈ s.groups) →
      names_determine_ids s → TrackInv s →
      TrackInv (schedule_courses oracle groups cs s k).1 := by
  intro cs
  induction cs with
  | nil => intro s k _ _ _ hinv; exact hinv
  | cons c cs' ih =>
    intro s k hor hgs hinj hinv
    simp only [schedule_courses]
    rcases hg : schedule_groups oracle c groups s k with ⟨s0, k0, ok⟩
    have hcat : same_catalog s s0 := by
      have := schedule_groups_catalog oracle c groups s k
      rwa [hg] at this
    have hinv0 : TrackInv s0 := by
      have := schedule_groups_inv oracle c groups s k hor hgs hinj hinv
      rwa [hg] at this
    rcases ok with _ | _
    · exact hinv0
    · exact ih s0 k0
        (fun k' t h' => hcat.2.1 ▸ hor k' t h')
        (fun g' hg' => hcat.2.2.2.2 ▸ hgs g' hg')
        (names_determine_ids_of_same_catalog hcat hinj) hinv0

theorem mkSolver_inv (courses : List Course) (teachers : List Teacher)
    (rooms : List Room) (timeslots : List TimeSlot) (groups : List Group) :
    TrackInv (mkSolver courses teachers rooms timeslots groups) := by
  constructor <;> simp [mkSolver, no_share]

/-- C1 (amended): under catalog well-formedness — distinct teachers have
distinct names, distinct rooms distinct room numbers, distinct groups
distinct names (formally: the display field determines the tracker id) —
every solution returned by `solve` has no two assignments sharing
(teacher_name, day, period), none sharing (room_number, day, period),
none sharing (group_name, day, period), and every assignment's
course_type equals its room_type. -/
theorem solve_conflict_free (oracle : Nat → List Teacher)
    (courses : List Course) (teachers : List Teacher) (rooms : List Room)
    (timeslots : List TimeSlot) (groups : List Group)
    (shuffled_courses : List Course) (shuffled_groups : List Group)
    (sol : List Assignment)
    (hor : ∀ k t, t ∈ oracle k → t ∈ teachers)
    (hgs : ∀ g ∈ shuffled_groups, g ∈ groups)
    (hT : ∀ t1 ∈ teachers, ∀ t2 ∈ teachers, t1.name = t2.name → t1.id = t2.id)
    (hR : ∀ r1 ∈ rooms, ∀ r2 ∈ rooms,
      r1.room_number = r2.room_number → r1.id = r2.id)
    (hG : ∀ g1 ∈ groups, ∀ g2 ∈ groups, g1.name = g2.name → g1.id = g2.id)
    (hsol : (solve oracle shuffled_courses shuffled_groups
      (mkSolver courses teachers rooms timeslots groups)).1 = some sol) :
    no_share (fun a => a.teacher_name) sol ∧
    no_share (fun a => a.room_number) sol ∧
    no_share (fun a => a.group_name) sol ∧
    ∀ a ∈ sol, a.course_type = a.room_type := by
  unfold solve at hsol
  rcases hrun : schedule_courses oracle shuffled_groups shuffled_courses
      (mkSolver courses teachers rooms timeslots groups) 0
      with ⟨s', k', ok⟩
  rw [hrun] at hsol
  rcases ok with _ | _
  · exact absurd hsol (by simp)
  · obtain rfl : s'.solution = sol := by simpa using hsol
    have hinv : TrackInv s' := by
      have := schedule_courses_inv oracle shuffled_groups shuffled_courses
        (mkSolver courses teachers rooms timeslots groups) 0
        hor hgs ⟨hT, hR, hG⟩
        (mkSolver_inv courses teachers rooms timeslots groups)
      rwa [hrun] at this
    exact ⟨hinv.teacher_pw, hinv.room_pw, hinv.group_pw, hinv.types⟩

theorem flatten_periods_add (a : Assignment) :
    ∀ bs, (flatten_periods (add_to_periods a bs)).Perm
      (flatten_periods bs ++ [a]) := by
  intro bs
  induction bs with
  | nil => simp [add_to_periods, flatten_periods]
  | cons pb rest ih =>
    obtain ⟨p, bucket⟩ := pb
    by_cases h : p = a.period
    · simp only [add_to_periods, if_pos h, flatten_periods, List.flatMap_cons]
      rw [List.append_assoc, List.append_assoc]
      exact List.Perm.append_left bucket List.perm_append_comm
    · simp only [add_to_periods, if_neg h, flatten_periods, List.flatMap_cons]
      rw [List.append_assoc]
      exact List.Perm.append_left bucket ih

theorem flatten_formatted_add (a : Assignment) :
    ∀ org, (flatten_formatted (add_to_days a org)).Perm
      (flatten_formatted org ++ [a]) := by
  intro org
  induction org with
  | nil => simp [add_to_days, flatten_formatted, flatten_periods]
  | cons db rest ih =>
    obtain ⟨d, buckets⟩ := db
    by_cases h : d = a.day
    · simp only [add_to_days, if_pos h, flatten_formatted, List.flatMap_cons]
      refine ((flatten_periods_add a buckets).append_right _).trans ?_
      rw [List.append_assoc, List.append_assoc]
      exact List.Perm.append_left _ List.perm_append_comm
    · simp only [add_to_days, if_neg h, flatten_formatted, List.flatMap_cons]
      rw [List.append_assoc]
      exact List.Perm.append_left _ ih

theorem flatten_foldl (sol : List Assignment) :
    ∀ acc, (flatten_formatted
        (sol.foldl (fun acc a => add_to_days a acc) acc)).Perm
      (flatten_formatted acc ++ sol) := by
  induction sol with
  | nil => intro acc; simp
  | cons a sol' ih =>
    intro acc
    simp only [List.foldl_cons]
    refine (ih (add_to_days a acc)).trans ?_
    refine ((flatten_formatted_add a acc).append_right sol').trans ?_
    rw [List.append_assoc]
    exact List.Perm.refl _

theorem flatten_sort_periods (buckets : List (Int × List Assignment)) :
    (flatten_periods (sort_periods buckets)).Perm (flatten_periods buckets) := by
  unfold flatten_periods sort_periods
  exact (List.perm_insertionSort
    (fun x y : Int × List Assignment => x.1 ≤ y.1) buckets).flatMap_right
    (fun pb => pb.2)

theorem add_to_periods_keys (a : Assignment) :
    ∀ bs, (add_to_periods a bs).map Prod.fst =
      (if a.period ∈ bs.map Prod.fst then bs.map Prod.fst
       else bs.map Prod.fst ++ [a.period]) := by
  intro bs
  induction bs with
  | nil => simp [add_to_periods]
  | cons pb rest ih =>
    obtain ⟨p, bucket⟩ := pb
    by_cases h : p = a.period
    · simp [add_to_periods, h]
    · simp only [add_to_periods, if_neg h, List.map_cons, ih]
      by_cases hmem : a.period ∈ rest.map Prod.fst
      · simp [hmem, Ne.symm h]
      · simp [hmem, Ne.symm h]

theorem add_to_periods_keys_nodup (a : Assignment)
    {bs : List (Int × List Assignment)} (h : (bs.map Prod.fst).Nodup) :
    ((add_to_periods a bs).map Prod.fst).Nodup := by
  rw [add_to_periods_keys]
  by_cases hmem : a.period ∈ bs.map Prod.fst
  · rwa [if_pos hmem]
  · rw [if_neg hmem]
    simp [List.nodup_append, h, hmem]

/-- All per-day period dictionaries of an organized structure have
duplicate-free keys. -/
def buckets_wf (org : List (String × List (Int × List Assignment))) : Prop :=
  ∀ db ∈ org, (db.2.map Prod.fst).Nodup

theorem add_to_days_wf (a : Assignment) :
    ∀ org, buckets_wf org → buckets_wf (add_to_days a org) := by
  intro org
  induction org with
  | nil =>
    intro _ db hdb
    simp only [add_to_days] at hdb
    rw [List.mem_singleton] at hdb
    subst hdb
    simp
  | cons db0 rest ih =>
    obtain ⟨d, buckets⟩ := db0
    intro h db hdb
    by_cases hd : d = a.day
    · simp only [add_to_days, if_pos hd] at hdb
      rcases List.mem_cons.mp hdb with h' | h'
      · subst h'
        exact add_to_periods_keys_nodup a (h (d, buckets) (List.mem_cons_self _ _))
      · exact h db (List.mem_cons_of_mem _ h')
    · simp only [add_to_days, if_neg hd] at hdb
      rcases List.mem_cons.mp hdb with h' | h'
      · subst h'
        exact h (d, buckets) (List.mem_cons_self _ _)
      · exact ih (fun db' hdb' => h db' (List.mem_cons_of_mem _ hdb')) db h'

theorem foldl_wf (sol : List Assignment) :
    ∀ acc, buckets_wf acc →
      buckets_wf (sol.foldl (fun acc a => add_to_days a acc) acc) := by
  induction sol with
  | nil => intro acc h; exact h
  | cons a sol' ih =>
    intro acc h
    simp only [List.foldl_cons]
    exact ih _ (add_to_days_wf a acc h)

theorem sort_periods_keys_sorted {bs : List (Int × List Assignment)}
    (h : (bs.map Prod.fst).Nodup) :
    ((sort_periods bs).map Prod.fst).Sorted (· < ·) := by
  haveI htot : IsTotal (Int × List Assignment) (fun x y => x.1 ≤ y.1) :=
    ⟨fun a b => le_total a.1 b.1⟩
  haveI htr : IsTrans (Int × List Assignment) (fun x y => x.1 ≤ y.1) :=
    ⟨fun a b c hab hbc => le_trans hab hbc⟩
  have hs : List.Sorted (fun x y : Int × List Assignment => x.1 ≤ y.1)
      (List.insertionSort (fun x y : Int × List Assignment => x.1 ≤ y.1) bs) :=
    List.sorted_insertionSort _ bs
  have hle : ((sort_periods bs).map Prod.fst).Pairwise
      (fun x y : Int => x ≤ y) :=
    List.Pairwise.map Prod.fst (fun _ _ hab => hab) hs
  have hnd : ((sort_periods bs).map Prod.fst).Nodup := by
    have hperm := (List.perm_insertionSort
      (fun x y : Int × List Assignment => x.1 ≤ y.1) bs).map Prod.fst
    exact (hperm.nodup_iff).mpr h
  have hand := hle.and hnd
  exact hand.imp (fun hab => lt_of_le_of_ne hab.1 hab.2)

/-- C7: concatenating all day/period buckets of `format_solution sol`
yields a permutation of `sol` (identical multiset: every input assignment
lands in exactly one bucket), and within each day the period keys are
emitted in strictly ascending numeric order. -/
theorem format_solution_round_trip (sol : List Assignment) :
    (flatten_formatted (format_solution sol)).Perm sol ∧
    (format_solution sol).Forall
      (fun db => (db.2.map Prod.fst).Sorted (· < ·)) := by
  by_cases hnil : sol = []
  · subst hnil
    simp [format_solution, flatten_formatted]
  · constructor
    · unfold format_solution
      rw [if_neg hnil]
      have hsort : (flatten_formatted
          ((sol.foldl (fun acc a => add_to_days a acc) []).map
            (fun db => (db.1, sort_periods db.2)))).Perm
          (flatten_formatted
            (sol.foldl (fun acc a => add_to_days a acc) [])) := by
        unfold flatten_formatted
        rw [List.flatMap_map]
        exact List.Perm.flatMap_left _
          (fun db _ => flatten_sort_periods db.2)
      refine hsort.trans ?_
      have := flatten_foldl sol []
      simpa [flatten_formatted] using this
    · rw [List.forall_iff_forall_mem]
      intro db hdb
      unfold format_solution at hdb
      rw [if_neg hnil] at hdb
      obtain ⟨db0, hdb0, rfl⟩ := List.mem_map.mp hdb
      have hwf : buckets_wf (sol.foldl (fun acc a => add_to_days a acc) []) :=
        foldl_wf sol [] (by intro db' h'; simp at h')
      exact sort_periods_keys_sorted (hwf db0 hdb0)

/-! Concrete catalogs used by the scenario theorem, the counterexample and
the witnesses. -/

def exCourse : Course := ⟨"c1", "CS101", "Data", 2, "Theory"⟩

def exTeacher : Teacher := ⟨"t1", "Dr. X", "CS"⟩

def exRoom : Room := ⟨"r1", "A101", 60, "Theory"⟩

def exSlot1 : TimeSlot := ⟨"s1", "Mon", 1, "09:00", "10:00"⟩

def exSlot2 : TimeSlot := ⟨"s2", "Mon", 2, "10:00", "11:00"⟩

def exSlot3 : TimeSlot := ⟨"s3", "Mon", 3, "11:00", "12:00"⟩

def exGroup : Group := ⟨"g1", "CS-A", 3, "CS"⟩

def exState : SolverState :=
  mkSolver [exCourse] [exTeacher] [exRoom] [exSlot1, exSlot2, exSlot3]
    [exGroup]

def exA1 : Assignment := mk_assignment exCourse exTeacher exRoom exSlot1 exGroup

def exA3 : Assignment := mk_assignment exCourse exTeacher exRoom exSlot3 exGroup

/-- C8: Scenario A.  One course with sessions_per_week = 2, one teacher,
one Theory room, one group and the timeslots Mon/P1, Mon/P2, Mon/P3:
`solve` succeeds with exactly two assignments, both on Monday, at periods
1 and 3 — the P1+P2 combination being rejected by the adjacency rule. -/
theorem scenario_A (oracle : Nat → List Teacher)
    (h : ∀ k, (oracle k).Perm [exTeacher]) :
    (solve oracle [exCourse] [exGroup] exState).1 = some [exA1, exA3] ∧
    ((solve oracle [exCourse] [exGroup] exState).1.getD []).map
      (fun a => (a.day, a.period)) = [("Mon", 1), ("Mon", 3)] := by
  have ho : oracle = fun _ => [exTeacher] :=
    funext fun k => List.perm_singleton.mp (h k)
  subst ho
  exact ⟨by decide, by decide⟩

theorem scenario_A_witness :
    (solve (fun _ => [exTeacher]) [exCourse] [exGroup] exState).1 =
      some [exA1, exA3] ∧
    ((solve (fun _ => [exTeacher]) [exCourse] [exGroup] exState).1.getD
      []).map (fun a => (a.day, a.period)) = [("Mon", 1), ("Mon", 3)] :=
  scenario_A (fun _ => [exTeacher]) (fun _ => List.Perm.refl _)

theorem solve_conflict_free_witness :
    no_share (fun a => a.teacher_name) [exA1, exA3] ∧
    no_share (fun a => a.room_number) [exA1, exA3] ∧
    no_share (fun a => a.group_name) [exA1, exA3] ∧
    ∀ a ∈ [exA1, exA3], a.course_type = a.room_type :=
  solve_conflict_free (fun _ => [exTeacher]) [exCourse] [exTeacher] [exRoom]
    [exSlot1, exSlot2, exSlot3] [exGroup] [exCourse] [exGroup] [exA1, exA3]
    (fun _ t ht => ht) (fun g hg => hg) (by decide) (by decide) (by decide)
    (by decide)

theorem solve_session_counts_witness :
    ([exA1, exA3].filter (fun a => a.course_code == exCourse.code &&
      a.group_name == exGroup.name)).length = exCourse.sessions_per_week :=
  solve_session_counts (fun _ => [exTeacher]) [exCourse] [exTeacher] [exRoom]
    [exSlot1, exSlot2, exSlot3] [exGroup] [exCourse] [exGroup] [exA1, exA3]
    exCourse exGroup (List.Perm.refl _) (List.Perm.refl _) (by decide)
    (by decide) (by decide) (by decide) (by decide)

/-- A Lab course in a catalog with only a Theory room: its very first
session cannot be placed. -/
def fCourse : Course := ⟨"f1", "LAB1", "Database Lab", 1, "Lab"⟩

def fState : SolverState :=
  mkSolver [fCourse] [exTeacher] [exRoom] [exSlot1] [exGroup]

theorem solve_all_or_nothing_witness :
    (solve (fun _ => [exTeacher]) [fCourse] [exGroup] fState).1 = none :=
  solve_all_or_nothing (fun _ => [exTeacher]) [] [] fCourse [] [] exGroup
    fState fState fState fState 0 0 0 0 rfl rfl rfl (by decide) rfl

theorem assign_session_preferred_once_witness :
    (∀ code tid, exState.course_teacher_map code = some tid →
      (commit exState exCourse exGroup exTeacher exRoom exSlot1
        true).course_teacher_map code = some tid) ∧
    (exState.course_teacher_map exCourse.code = none →
      ∃ t ∈ [exTeacher],
        (commit exState exCourse exGroup exTeacher exRoom exSlot1
          true).course_teacher_map exCourse.code = some t.id) ∧
    (∀ code, code ≠ exCourse.code →
      (commit exState exCourse exGroup exTeacher exRoom exSlot1
        true).course_teacher_map code = exState.course_teacher_map code) :=
  assign_session_preferred_once [exTeacher] [exTeacher] exCourse exGroup
    exState (commit exState exCourse exGroup exTeacher exRoom exSlot1 true)
    rfl

/-! The C1 counterexample catalog: two teachers with the same name "X"
and distinct ids. -/

def cxCourseA : Course := ⟨"ca", "A", "A", 1, "Theory"⟩

def cxCourseB : Course := ⟨"cb", "B", "B", 1, "Theory"⟩

def cxTeacher1 : Teacher := ⟨"1", "X", ""⟩

def cxTeacher2 : Teacher := ⟨"2", "X", ""⟩

def cxRoom1 : Room := ⟨"r1", "101", 0, "Theory"⟩

def cxRoom2 : Room := ⟨"r2", "102", 0, "Theory"⟩

def cxSlot1 : TimeSlot := ⟨"s1", "Mon", 1, "", ""⟩

def cxSlot2 : TimeSlot := ⟨"s2", "Mon", 2, "", ""⟩

def cxGroup1 : Group := ⟨"g1", "G1", 0, ""⟩

def cxGroup2 : Group := ⟨"g2", "G2", 0, ""⟩

def cxOracle : Nat → List Teacher := fun k =>
  if k = 4 then [cxTeacher2, cxTeacher1] else [cxTeacher1, cxTeacher2]

def cxState : SolverState :=
  mkSolver [cxCourseA, cxCourseB] [cxTeacher1, cxTeacher2]
    [cxRoom1, cxRoom2] [cxSlot1, cxSlot2] [cxGroup1, cxGroup2]

/-- C1 counterexample: with two teachers sharing the display name "X"
(distinct ids), `solve` returns a solution in which two distinct
assignments share (teacher_name, day, period): the conflict trackers are
keyed by id, while the invariant is stated on the copied name.  So the
claim as stated fails on the code. -/
theorem solve_name_conflict_counterexample :
    ((solve cxOracle [cxCourseA, cxCourseB] [cxGroup1, cxGroup2]
      cxState).1).isSome = true ∧
    ¬ no_share (fun a => a.teacher_name)
      (((solve cxOracle [cxCourseA, cxCourseB] [cxGroup1, cxGroup2]
        cxState).1).getD []) := by
  constructor
  · decide
  · unfold no_share
    decide

end TimetableGen
